import Mathlib

/-!
Shallow embedding of the MSP-EXP430F5438A HAL
(`src/MSP-EXP430F5438A/Platform-MSP-EXP430F5438A/Hal/Hal.c`):
the event dispatcher (`postEvent` / `Hal_idleLoop`), the periodic tick
(`Hal_tickStart` / `timerIsr`), the UART transport watchdog
(`UART_WATCH_ENABLE` / `UART_WATCH_DISABLE` / `uartWatchdogIsr` / `txAckIsr`)
and the link-reset primitive (`Em_Hal_reset`), as executable Lean
definitions, together with theorems settling the specification claims.

Machine integers are modelled as `Nat` with explicit reduction modulo
`2 ^ 16` wherever a 16-bit register or `uint16_t` variable is written.
The external byte-stream codec (`Em_Message_*`) is out of scope and is
modelled by oracle parameters (the Boolean result of `Em_Message_addByte`,
the optional byte produced by `Em_Message_getByte`) and by an invocation
counter for `Em_Message_restart`.
-/

set_option maxRecDepth 2000

namespace Hal

/-- `NUM_HANDLERS` (Hal.c line 160): number of handler-table slots. -/
def NUM_HANDLERS : Nat := 3

/-- `BUTTON_HANDLER_ID` (Hal.c line 162). -/
def BUTTON_HANDLER_ID : Nat := 0

/-- `TICK_HANDLER_ID` (Hal.c line 163). -/
def TICK_HANDLER_ID : Nat := 1

/-- `DISPATCH_HANDLER_ID` (Hal.c line 164). -/
def DISPATCH_HANDLER_ID : Nat := 2

/-- `2 ^ 16`, the modulus of 16-bit registers and `uint16_t` variables. -/
def UINT16_MOD : Nat := 65536

/-- `postEvent(handlerId)` (Hal.c lines 401-405):
`handlerEvents |= 1 << handlerId` on the 16-bit mask, performed inside the
global critical section (`Em_Hal_lock` / `Em_Hal_unlock`), hence atomic. -/
def postEvent (handlerId : Nat) (handlerEvents : Nat) : Nat :=
  (handlerEvents ||| (1 <<< handlerId)) % UINT16_MOD

/-- A whole sequence of `postEvent` calls, applied in order to the mask. -/
def postAll (ps : List Nat) (handlerEvents : Nat) : Nat :=
  ps.foldl (fun ev i => postEvent i ev) handlerEvents

/-- The dispatch-loop test `events & mask` with `mask = 1 << id`
(Hal.c line 307), as a Boolean. -/
def evTest (events id : Nat) : Bool := events &&& (1 <<< id) != 0

/-- The list of handler identifiers invoked, in order, by one drain of
`Hal_idleLoop` (Hal.c lines 306-310): the loop walks `id = 0, 1, 2` with
`mask = 1 << id` and calls `handlerTab[id]()` exactly when
`(events & mask) && handlerTab[id]`.  `tab id = true` models a bound
(non-NULL) `handlerTab[id]` slot.  The resulting list is the exact
invocation order; each handler runs to completion before the next entry. -/
def drainInvoked (events : Nat) (tab : Nat → Bool) : List Nat :=
  (List.range NUM_HANDLERS).filter (fun id => evTest events id && tab id)

theorem evTest_eq_testBit (events id : Nat) :
    evTest events id = events.testBit id := by
  cases h : events.testBit id <;>
    simp [evTest, Nat.one_shiftLeft, Nat.and_two_pow, h]

theorem mem_drainInvoked (events : Nat) (tab : Nat → Bool) (id : Nat) :
    id ∈ drainInvoked events tab ↔
      id < NUM_HANDLERS ∧ evTest events id = true ∧ tab id = true := by
  simp [drainInvoked, List.mem_filter, List.mem_range, Bool.and_eq_true,
    and_assoc]

theorem drainInvoked_nodup (events : Nat) (tab : Nat → Bool) :
    (drainInvoked events tab).Nodup :=
  (List.nodup_range NUM_HANDLERS).filter _

theorem postEvent_testBit (i ev j : Nat) (hj : j < 16) :
    (postEvent i ev).testBit j = (ev.testBit j || decide (i = j)) := by
  have h65536 : UINT16_MOD = 2 ^ 16 := by norm_num [UINT16_MOD]
  rw [postEvent, h65536, Nat.testBit_mod_two_pow, Nat.one_shiftLeft,
    Nat.testBit_or]
  by_cases h : i = j
  · subst h
    simp [Nat.testBit_two_pow_self, hj]
  · simp [Nat.testBit_two_pow_of_ne h, hj, h]

theorem postAll_testBit (ps : List Nat) (ev j : Nat) (hj : j < 16) :
    (postAll ps ev).testBit j = (ev.testBit j || decide (j ∈ ps)) := by
  induction ps generalizing ev with
  | nil => simp [postAll]
  | cons p ps ih =>
    have hstep : postAll (p :: ps) ev = postAll ps (postEvent p ev) := rfl
    rw [hstep, ih (postEvent p ev), postEvent_testBit p ev j hj]
    have hpj : decide (p = j) = decide (j = p) := by simp [eq_comm]
    rw [hpj]
    simp [List.mem_cons, Bool.decide_or, Bool.or_assoc]

/-- C2: for every sequence of `postEvent` calls between two consecutive
drains (the mask starts at 0 after a drain clears it), the following drain
invokes the handler bound to `id` exactly once if `id` was posted at least
once — regardless of how many times it was posted — and zero times
otherwise; moreover `postEvent` on an already-set bit is a no-op (events
coalesce).  Models Hal.c lines 401-405 (`postEvent`) and 302-311
(`Hal_idleLoop`). -/
theorem C2_events_coalesce_exactly_once (ps : List Nat) (id : Nat)
    (tab : Nat → Bool) (hid : id < NUM_HANDLERS) :
    ((drainInvoked (postAll ps 0) tab).count id
        = if id ∈ ps ∧ tab id = true then 1 else 0) ∧
    (∀ ev, postEvent id (postEvent id ev) = postEvent id ev) := by
  have hid3 : id < 3 := by simpa [NUM_HANDLERS] using hid
  have h16 : id < 16 := by omega
  have hM : UINT16_MOD = 2 ^ 16 := by norm_num [UINT16_MOD]
  constructor
  · have hevbit : evTest (postAll ps 0) id = decide (id ∈ ps) := by
      rw [evTest_eq_testBit, postAll_testBit ps 0 id h16, Nat.zero_testBit]
      simp
    by_cases hmem : id ∈ ps
    · by_cases htab : tab id = true
      · have hm : id ∈ drainInvoked (postAll ps 0) tab :=
          (mem_drainInvoked _ _ _).mpr ⟨hid, by simp [hevbit, hmem], htab⟩
        rw [List.count_eq_one_of_mem (drainInvoked_nodup _ _) hm]
        simp [hmem, htab]
      · have hnm : id ∉ drainInvoked (postAll ps 0) tab := by
          rw [mem_drainInvoked]
          rintro ⟨-, -, h2⟩
          exact htab h2
        rw [List.count_eq_zero_of_not_mem hnm]
        simp [htab]
    · have hnm : id ∉ drainInvoked (postAll ps 0) tab := by
        rw [mem_drainInvoked]
        rintro ⟨-, h2, -⟩
        simp [hevbit, hmem] at h2
      rw [List.count_eq_zero_of_not_mem hnm]
      simp [hmem]
  · intro ev
    apply Nat.eq_of_testBit_eq
    intro j
    by_cases hj : j < 16
    · rw [postEvent_testBit id (postEvent id ev) j hj,
        postEvent_testBit id ev j hj]
      cases h : decide (id = j) <;> simp
    · simp only [postEvent, hM]
      rw [Nat.testBit_mod_two_pow, Nat.testBit_mod_two_pow]
      simp [hj]

/-- C2 witness: posting identifier 2 three times (and 1 once) before a drain
makes the drain invoke handler 2 exactly once, and re-posting a set bit is a
no-op. -/
theorem C2_events_coalesce_exactly_once_witness :
    (2 : Nat) < NUM_HANDLERS ∧
    (((drainInvoked (postAll [2, 2, 1, 2] 0) (fun _ => true)).count 2
        = if 2 ∈ [2, 2, 1, 2] ∧ (fun _ => true) 2 = true then 1 else 0) ∧
     (∀ ev, postEvent 2 (postEvent 2 ev) = postEvent 2 ev)) :=
  ⟨by decide, C2_events_coalesce_exactly_once [2, 2, 1, 2] 2 (fun _ => true)
    (by decide)⟩

/-- C1: a `postEvent id` landing strictly inside the critical section of a
drain in progress takes effect after the atomic read-and-clear of
`handlerEvents` (interrupts are disabled between `DINT()` and `EINT()`, so
the posting interrupt is taken right after the snapshot is cleared; its bit
lands on the freshly cleared mask).  The event is not invoked by the
current drain (its bit was not in the snapshot `s`), it is never lost (the
bit is set in the mask the next drain will read), and the next drain
invokes the handler exactly once for it.  Models Hal.c lines 292-316
(`Hal_idleLoop`) and 401-405 (`postEvent`); `ps` is the full list of posts
arriving between the two snapshots. -/
theorem C1_post_inside_critical_section_deferred_not_lost
    (s : Nat) (ps : List Nat) (id : Nat) (tab : Nat → Bool)
    (hid : id < NUM_HANDLERS) (htab : tab id = true)
    (hpend : evTest s id = false) (hin : id ∈ ps) :
    id ∉ drainInvoked s tab ∧
    evTest (postAll ps 0) id = true ∧
    (drainInvoked (postAll ps 0) tab).count id = 1 := by
  have hid3 : id < 3 := by simpa [NUM_HANDLERS] using hid
  have h16 : id < 16 := by omega
  have hbit : evTest (postAll ps 0) id = true := by
    rw [evTest_eq_testBit, postAll_testBit ps 0 id h16, Nat.zero_testBit]
    simp [hin]
  refine ⟨?_, hbit, ?_⟩
  · rw [mem_drainInvoked]
    rintro ⟨-, h2, -⟩
    rw [hpend] at h2
    exact Bool.false_ne_true h2
  · have hm : id ∈ drainInvoked (postAll ps 0) tab :=
      (mem_drainInvoked _ _ _).mpr ⟨hid, hbit, htab⟩
    exact List.count_eq_one_of_mem (drainInvoked_nodup _ _) hm

/-- C1 witness: with an empty snapshot and a single post of identifier 1
inside the critical section, the current drain skips handler 1 and the next
drain runs it exactly once. -/
theorem C1_post_inside_critical_section_deferred_not_lost_witness :
    ((1 : Nat) < NUM_HANDLERS ∧ (fun _ => true) 1 = true ∧
      evTest 0 1 = false ∧ 1 ∈ [1]) ∧
    (1 ∉ drainInvoked 0 (fun _ => true) ∧
     evTest (postAll [1] 0) 1 = true ∧
     (drainInvoked (postAll [1] 0) (fun _ => true)).count 1 = 1) :=
  ⟨⟨by decide, rfl, by decide, by decide⟩,
   C1_post_inside_critical_section_deferred_not_lost 0 [1] 1 (fun _ => true)
     (by decide) rfl (by decide) (by decide)⟩

/-- C6: within a single drain the invoked handlers are in strictly
ascending identifier order (the invocation list is the exact temporal
order — each handler returns before the next is called, Hal.c lines
306-310), and for the snapshot with bits {0,2} set the order is handler 0
then handler 2. -/
theorem C6_handlers_ascending_identifier_order :
    (∀ (events : Nat) (tab : Nat → Bool),
        (drainInvoked events tab).Pairwise (· < ·)) ∧
    drainInvoked 5 (fun _ => true) = [0, 2] := by
  constructor
  · intro events tab
    exact (List.pairwise_lt_range NUM_HANDLERS).filter _
  · decide

/-- C9: a set bit whose handler-table slot is unbound (`handlerTab[id]` is
NULL, modelled `tab id = false`) is silently skipped by the drain: the
slot's identifier is never in the invocation list, no fault is raised (the
drain is a total function), and every other identifier is invoked exactly
under the usual condition (its bit set and its slot bound).  Models Hal.c
lines 306-310. -/
theorem C9_unbound_slot_silently_skipped (events id : Nat)
    (tab : Nat → Bool) (h : tab id = false) :
    id ∉ drainInvoked events tab ∧
    (∀ j, j ≠ id →
        (j ∈ drainInvoked events tab ↔
          j < NUM_HANDLERS ∧ evTest events j = true ∧ tab j = true)) := by
  constructor
  · rw [mem_drainInvoked]
    rintro ⟨-, -, h2⟩
    rw [h] at h2
    exact Bool.false_ne_true h2
  · intro j _
    exact mem_drainInvoked events tab j

/-- C9 witness: with bits {0,2} set and slot 2 unbound, handler 2 is
skipped while the condition for every other slot is unchanged. -/
theorem C9_unbound_slot_silently_skipped_witness :
    (fun j => j != 2) 2 = false ∧
    (2 ∉ drainInvoked 5 (fun j => j != 2) ∧
     (∀ j, j ≠ 2 →
        (j ∈ drainInvoked 5 (fun j => j != 2) ↔
          j < NUM_HANDLERS ∧ evTest 5 j = true ∧ (fun j => j != 2) j = true))) :=
  ⟨by decide, C9_unbound_slot_silently_skipped 5 2 (fun j => j != 2) (by decide)⟩

/-- `ACLK_TICKS_PER_SECOND` (Hal.c line 130): ACLK runs at 32768 Hz. -/
def ACLK_TICKS_PER_SECOND : Nat := 32768

/-- The tick count `(ACLK_TICKS_PER_SECOND * msecs) / 1000` computed in
32-bit `long` arithmetic (no 32-bit overflow for `msecs < 2 ^ 16`) and then
stored into the 16-bit `uint16_t` variable `clockTick`, which truncates
modulo `2 ^ 16` (Hal.c lines 171 and 336). -/
def clockTickFor (msecs : Nat) : Nat :=
  (ACLK_TICKS_PER_SECOND * msecs / 1000) % UINT16_MOD

/-- The TimerA1 state used by the periodic tick: the free-running counter
`TA1R`, the compare register `TA1CCR0`, its interrupt-enable bit
`TA1CCTL0 = CCIE`, the stored period `clockTick`, and the event mask. -/
structure TimerState where
  ta1r : Nat
  ta1ccr0 : Nat
  ta1cctl0 : Bool
  clockTick : Nat
  handlerEvents : Nat
deriving DecidableEq

/-- `Hal_tickStart(msecs, handler)` (Hal.c lines 334-339): store the period,
program `TA1CCR0 = TA1R + clockTick` (16-bit register), enable the CCR0
interrupt.  The binding of `handler` into `handlerTab[TICK_HANDLER_ID]` is
table state handled by the dispatcher model. -/
def Hal_tickStart (msecs : Nat) (s : TimerState) : TimerState :=
  { s with clockTick := clockTickFor msecs,
           ta1ccr0 := (s.ta1r + clockTickFor msecs) % UINT16_MOD,
           ta1cctl0 := true }

/-- `timerIsr` (Hal.c lines 460-464): `TA1CCR0 += clockTick` (16-bit
register addition — the next deadline is the last programmed deadline plus
one period, not the current `TA1R`), then `postEvent(TICK_HANDLER_ID)`. -/
def timerIsr (s : TimerState) : TimerState :=
  { s with ta1ccr0 := (s.ta1ccr0 + s.clockTick) % UINT16_MOD,
           handlerEvents := postEvent TICK_HANDLER_ID s.handlerEvents }

/-- Time passing between expiries: the free-running counter advances by
`d` ticks (the handler latency of the expiry processing).  No other field
is touched. -/
def advanceTime (d : Nat) (s : TimerState) : TimerState :=
  { s with ta1r := (s.ta1r + d) % UINT16_MOD }

/-- A sequence of tick expiries, with arbitrary latency `d` elapsing
before each run of `timerIsr`. -/
def runExpiries (lats : List Nat) (s : TimerState) : TimerState :=
  lats.foldl (fun s d => timerIsr (advanceTime d s)) s

theorem runExpiries_ta1ccr0 (lats : List Nat) (s : TimerState)
    (hs : s.ta1ccr0 < UINT16_MOD) :
    (runExpiries lats s).ta1ccr0
      = (s.ta1ccr0 + lats.length * s.clockTick) % UINT16_MOD := by
  induction lats generalizing s with
  | nil => simpa [runExpiries] using (Nat.mod_eq_of_lt hs).symm
  | cons d ds ih =>
    have hstep : runExpiries (d :: ds) s
        = runExpiries ds (timerIsr (advanceTime d s)) := rfl
    rw [hstep, ih (timerIsr (advanceTime d s)) (Nat.mod_lt _ (by norm_num [UINT16_MOD]))]
    simp only [timerIsr, advanceTime]
    rw [Nat.mod_add_mod]
    congr 1
    simp [List.length_cons]
    ring

/-- C5: after `Hal_tickStart(msecs, handler)` the deadline programmed into
`TA1CCR0` after the `n`-th expiry is `start + (n+1) * period` (reduced
modulo `2 ^ 16`, the width of the compare register), where `start` is the
timer value at `Hal_tickStart` time and `period` the stored tick count:
the deadlines form the arithmetic sequence `period, 2*period, 3*period, …`
from the start time.  The latencies `lats` between expiries — the
free-running-counter advance while each handler executes — are arbitrary
and do not appear in the result: re-arming is additive
(`TA1CCR0 += clockTick`, Hal.c line 461), never "now + period". -/
theorem C5_additive_rearming_arithmetic_deadlines (msecs : Nat)
    (s : TimerState) (lats : List Nat) :
    (runExpiries lats (Hal_tickStart msecs s)).ta1ccr0
      = (s.ta1r + (lats.length + 1) * clockTickFor msecs) % UINT16_MOD := by
  have h1 : (Hal_tickStart msecs s).ta1ccr0
      = (s.ta1r + clockTickFor msecs) % UINT16_MOD := rfl
  rw [runExpiries_ta1ccr0 lats (Hal_tickStart msecs s)
    (by rw [h1]; exact Nat.mod_lt _ (by norm_num [UINT16_MOD]))]
  simp only [Hal_tickStart]
  rw [Nat.mod_add_mod]
  ring_nf

/-- C10: the period stored by `Hal_tickStart` is
`((32768 * msecs) / 1000) % 2 ^ 16` — the 32-bit product-and-divide is
truncated into the 16-bit `clockTick` — so for every requested period of
at least 2000 ms the stored period wraps and is strictly shorter than the
requested tick count; at exactly `msecs = 2000` it is 0 ticks. -/
theorem C10_clockTick_truncates_to_16_bits (msecs : Nat) (s : TimerState)
    (h : 2000 ≤ msecs) :
    (Hal_tickStart msecs s).clockTick = 32768 * msecs / 1000 % 65536 ∧
    (Hal_tickStart msecs s).clockTick < 32768 * msecs / 1000 ∧
    (msecs = 2000 → (Hal_tickStart msecs s).clockTick = 0) := by
  have heq : (Hal_tickStart msecs s).clockTick = 32768 * msecs / 1000 % 65536 := rfl
  have hbig : 65536 ≤ 32768 * msecs / 1000 := by
    rw [Nat.le_div_iff_mul_le (by norm_num : 0 < 1000)]
    calc 65536 * 1000 = 32768 * 2000 := by norm_num
    _ ≤ 32768 * msecs := Nat.mul_le_mul_left 32768 h
  refine ⟨heq, ?_, ?_⟩
  · rw [heq]
    exact lt_of_lt_of_le (Nat.mod_lt _ (by norm_num)) hbig
  · intro h2000
    subst h2000
    rw [heq]

/-- C10 witness: a requested period of 2000 ms is stored as 0 ticks. -/
theorem C10_clockTick_truncates_to_16_bits_witness :
    2000 ≤ 2000 ∧
    ((Hal_tickStart 2000 ⟨0, 0, false, 0, 0⟩).clockTick
        = 32768 * 2000 / 1000 % 65536 ∧
     (Hal_tickStart 2000 ⟨0, 0, false, 0, 0⟩).clockTick < 32768 * 2000 / 1000 ∧
     (2000 = 2000 → (Hal_tickStart 2000 ⟨0, 0, false, 0, 0⟩).clockTick = 0)) :=
  ⟨by decide, C10_clockTick_truncates_to_16_bits 2000 ⟨0, 0, false, 0, 0⟩ (by decide)⟩

/-- `UART_WATCHDOG_PERIOD` (Hal.c line 131):
`(ACLK_TICKS_PER_SECOND * 250) / 1000` = 8192 ticks, i.e. 250 ms of the
32768 Hz ACLK that clocks TimerA1. -/
def UART_WATCHDOG_PERIOD : Nat := ACLK_TICKS_PER_SECOND * 250 / 1000

/-- The state touched by the UART watchdog and the transmit-acknowledge
interrupt: the TimerA1 counter `TA1R`, the compare register `TA1CCR1`, its
interrupt-enable bit (`TA1CCTL1 = CCIE` versus `TA1CCTL1 = 0`), the UART
transmit register `EAP_TX_BUF`, the `EAP_TX_ACK` pending flag
(`P1IFG & BIT2`), and a counter of `Em_Message_restart` invocations (the
out-of-scope transport-restart callback). -/
structure WState where
  ta1r : Nat
  ta1ccr1 : Nat
  ta1cctl1 : Bool
  eapTxBuf : Nat
  txAckIfg : Bool
  restarts : Nat
deriving DecidableEq

/-- `UART_WATCH_ENABLE()` (Hal.c line 134), the watchdog `arm()`:
`TA1CCR1 = TA1R + UART_WATCHDOG_PERIOD` (16-bit register) and
`TA1CCTL1 = CCIE`. -/
def UART_WATCH_ENABLE (s : WState) : WState :=
  { s with ta1ccr1 := (s.ta1r + UART_WATCHDOG_PERIOD) % UINT16_MOD,
           ta1cctl1 := true }

/-- `UART_WATCH_DISABLE()` (Hal.c line 133), the watchdog `disarm()`:
`TA1CCTL1 = 0`, nothing else. -/
def UART_WATCH_DISABLE (s : WState) : WState :=
  { s with ta1cctl1 := false }

/-- The out-of-scope codec restart callback `Em_Message_restart()`, modelled
as bumping an invocation counter. -/
def Em_Message_restart (s : WState) : WState :=
  { s with restarts := s.restarts + 1 }

/-- `uartWatchdogIsr` (Hal.c lines 489-497), `TA1IV = 2` (CCR1) case: first
`UART_WATCH_DISABLE()`, then `Em_Message_restart()` (then `WAKEUP()`, which
touches none of this state). -/
def uartWatchdogIsr (s : WState) : WState :=
  Em_Message_restart (UART_WATCH_DISABLE s)

/-- `txAckIsr` (Hal.c lines 472-481): if the `EAP_TX_ACK` flag is pending,
ask the codec for the next byte (`Em_Message_getByte`, modelled by the
oracle `next`), write it to `EAP_TX_BUF` when one is available, and clear
the flag.  It does not touch `TA1CCR1`, `TA1CCTL1` or `TA1R`: the watchdog
is not disarmed on a peer-acknowledgment edge. -/
def txAckIsr (next : Option Nat) (s : WState) : WState :=
  if s.txAckIfg then
    match next with
    | some b => { s with eapTxBuf := b, txAckIfg := false }
    | none => { s with txAckIfg := false }
  else s

/-- Events of the watchdog-level trace: one ACLK tick elapsing (taking the
CCR1 interrupt when it is enabled and the counter reaches the compare
value), a peer-acknowledgment edge (hardware sets the `P1IFG` flag, then
`txAckIsr` runs with the codec oracle `next`), and the explicit
`Em_Hal_watchOn` / `Em_Hal_watchOff` commands (Hal.c lines 383-389). -/
inductive WEv where
  | tick
  | ackEdge (next : Option Nat)
  | watchOn
  | watchOff
deriving DecidableEq

def wstep (s : WState) (e : WEv) : WState :=
  match e with
  | .tick =>
      let s2 := { s with ta1r := (s.ta1r + 1) % UINT16_MOD }
      if s2.ta1cctl1 && (s2.ta1r == s2.ta1ccr1) then uartWatchdogIsr s2 else s2
  | .ackEdge next => txAckIsr next { s with txAckIfg := true }
  | .watchOn => UART_WATCH_ENABLE s
  | .watchOff => UART_WATCH_DISABLE s

def wrun (evs : List WEv) (s : WState) : WState := evs.foldl wstep s

/-- The watchdog-relevant projection of the state: timer counter, deadline,
enable bit, and the number of link resets fired. -/
def wproj (s : WState) : Nat × Nat × Bool × Nat :=
  (s.ta1r, s.ta1ccr1, s.ta1cctl1, s.restarts)

def isAckEdge : WEv → Bool
  | .ackEdge _ => true
  | _ => false

theorem wproj_wstep_congr (e : WEv) (s1 s2 : WState)
    (h : wproj s1 = wproj s2) : wproj (wstep s1 e) = wproj (wstep s2 e) := by
  obtain ⟨h1, h2, h3, h4⟩ :
      s1.ta1r = s2.ta1r ∧ s1.ta1ccr1 = s2.ta1ccr1 ∧
      s1.ta1cctl1 = s2.ta1cctl1 ∧ s1.restarts = s2.restarts := by
    simpa [wproj, Prod.ext_iff] using h
  cases e with
  | tick =>
    simp only [wstep, uartWatchdogIsr, Em_Message_restart, UART_WATCH_DISABLE,
      h1, h2, h3, h4]
    split <;> simp [wproj, h1, h2, h3, h4]
  | ackEdge next =>
    cases next <;> simp [wstep, txAckIsr, wproj, h1, h2, h3, h4]
  | watchOn => simp [wstep, UART_WATCH_ENABLE, wproj, h1, h2, h3, h4]
  | watchOff => simp [wstep, UART_WATCH_DISABLE, wproj, h1, h2, h3, h4]

theorem wproj_wrun_congr (evs : List WEv) (s1 s2 : WState)
    (h : wproj s1 = wproj s2) : wproj (wrun evs s1) = wproj (wrun evs s2) := by
  induction evs generalizing s1 s2 with
  | nil => simpa [wrun] using h
  | cons e evs ih => exact ih _ _ (wproj_wstep_congr e s1 s2 h)

theorem wproj_wstep_ackEdge (next : Option Nat) (s : WState) :
    wproj (wstep s (.ackEdge next)) = wproj s := by
  cases next <;> simp [wstep, txAckIsr, wproj]

theorem wrun_append (l1 l2 : List WEv) (s : WState) :
    wrun (l1 ++ l2) s = wrun l2 (wrun l1 s) :=
  List.foldl_append ..

theorem run_ticks_below (k : Nat) : ∀ (s : WState),
    s.ta1r + k < s.ta1ccr1 → s.ta1ccr1 < UINT16_MOD →
    wrun (List.replicate k WEv.tick) s = { s with ta1r := s.ta1r + k } := by
  induction k with
  | zero =>
    intro s _ _
    cases s
    simp [wrun]
  | succ k ih =>
    intro s hk hM
    have hstep : wrun (List.replicate (k + 1) WEv.tick) s
        = wrun (List.replicate k WEv.tick) (wstep s WEv.tick) := by
      rw [List.replicate_succ]
      rfl
    have hlt : s.ta1r + 1 < UINT16_MOD := by omega
    have hmod : (s.ta1r + 1) % UINT16_MOD = s.ta1r + 1 := Nat.mod_eq_of_lt hlt
    have hne : s.ta1r + 1 ≠ s.ta1ccr1 := by omega
    have htick : wstep s WEv.tick = { s with ta1r := s.ta1r + 1 } := by
      simp only [wstep, hmod]
      have : (s.ta1r + 1 == s.ta1ccr1) = false := by
        simpa using hne
      simp [this]
    rw [hstep, htick, ih { s with ta1r := s.ta1r + 1 } (by simp; omega) (by simpa)]
    simp [Nat.add_assoc, Nat.add_comm 1 k]

/-- C3 counterexample: arm the watchdog at timer value 0 (deadline 8192,
i.e. 250 ms), let 8191 ticks elapse, deliver a peer-acknowledgment edge
one tick before expiry, then one more tick.  The claim says the edge
cancels the pending reset so the watchdog does not fire; on the code the
watchdog fires anyway (`Em_Message_restart` runs once), because `txAckIsr`
(Hal.c lines 472-481) never touches `TA1CCR1`/`TA1CCTL1`. -/
theorem C3_counterexample_edge_does_not_cancel :
    (wrun (List.replicate 8191 WEv.tick ++ [WEv.ackEdge none, WEv.tick])
      (UART_WATCH_ENABLE ⟨0, 0, false, 0, false, 0⟩)).restarts = 1 := by
  have harm : UART_WATCH_ENABLE ⟨0, 0, false, 0, false, 0⟩
      = (⟨0, 8192, true, 0, false, 0⟩ : WState) := by decide
  have h1 : wrun (List.replicate 8191 WEv.tick)
      ((⟨0, 8192, true, 0, false, 0⟩ : WState))
      = (⟨8191, 8192, true, 0, false, 0⟩ : WState) := by
    rw [run_ticks_below 8191 _ (by decide) (by decide)]
  rw [harm, wrun_append, h1]
  decide

/-- C3 amended: after the watchdog is armed, the link-reset fires exactly
when the watchdog window elapses with the countdown interrupt still
enabled; a peer-acknowledgment edge does NOT cancel the pending reset —
only an explicit `Em_Hal_watchOff` (or the expiry itself) disables it.
Formally: (1) erasing every acknowledgment-edge event from any trace
leaves the watchdog-relevant state (`TA1R`, `TA1CCR1`, `TA1CCTL1` and the
number of link resets fired) unchanged — edges are invisible to the
watchdog; (2) on the concrete armed trace, the watchdog fires once at the
end of its 8192-tick window whether or not an edge arrives one tick
before expiry. -/
theorem C3_watchdog_fires_regardless_of_ack_edges :
    (∀ (evs : List WEv) (s : WState),
        wproj (wrun evs s)
          = wproj (wrun (evs.filter (fun e => !(isAckEdge e))) s)) ∧
    (wrun (List.replicate 8191 WEv.tick ++ [WEv.ackEdge none, WEv.tick])
        (UART_WATCH_ENABLE ⟨0, 0, false, 0, false, 0⟩)).restarts = 1 ∧
    (wrun (List.replicate 8191 WEv.tick ++ [WEv.tick])
        (UART_WATCH_ENABLE ⟨0, 0, false, 0, false, 0⟩)).restarts = 1 := by
  refine ⟨?_, ?_, ?_⟩
  · intro evs
    induction evs with
    | nil => intro s; rfl
    | cons e evs ih =>
      intro s
      cases he : isAckEdge e
      · have hkeep : (e :: evs).filter (fun e => !(isAckEdge e))
            = e :: evs.filter (fun e => !(isAckEdge e)) := by
          simp [List.filter_cons, he]
        rw [hkeep]
        have hstep : wrun (e :: evs) s = wrun evs (wstep s e) := rfl
        have hstep2 : wrun (e :: evs.filter (fun e => !(isAckEdge e))) s
            = wrun (evs.filter (fun e => !(isAckEdge e))) (wstep s e) := rfl
        rw [hstep, hstep2]
        exact ih (wstep s e)
      · cases e with
        | ackEdge next =>
          have hdrop : (WEv.ackEdge next :: evs).filter (fun e => !(isAckEdge e))
              = evs.filter (fun e => !(isAckEdge e)) := by
            simp [List.filter_cons, isAckEdge]
          rw [hdrop]
          have hstep : wrun (WEv.ackEdge next :: evs) s
              = wrun evs (wstep s (WEv.ackEdge next)) := rfl
          rw [hstep]
          calc wproj (wrun evs (wstep s (WEv.ackEdge next)))
              = wproj (wrun (evs.filter (fun e => !(isAckEdge e)))
                  (wstep s (WEv.ackEdge next))) := ih _
            _ = wproj (wrun (evs.filter (fun e => !(isAckEdge e))) s) :=
                wproj_wrun_congr _ _ _ (wproj_wstep_ackEdge next s)
        | tick => simp [isAckEdge] at he
        | watchOn => simp [isAckEdge] at he
        | watchOff => simp [isAckEdge] at he
  · have harm : UART_WATCH_ENABLE ⟨0, 0, false, 0, false, 0⟩
        = (⟨0, 8192, true, 0, false, 0⟩ : WState) := by decide
    have h1 : wrun (List.replicate 8191 WEv.tick)
        ((⟨0, 8192, true, 0, false, 0⟩ : WState))
        = (⟨8191, 8192, true, 0, false, 0⟩ : WState) := by
      rw [run_ticks_below 8191 _ (by decide) (by decide)]
    rw [harm, wrun_append, h1]
    decide
  · have harm : UART_WATCH_ENABLE ⟨0, 0, false, 0, false, 0⟩
        = (⟨0, 8192, true, 0, false, 0⟩ : WState) := by decide
    have h1 : wrun (List.replicate 8191 WEv.tick)
        ((⟨0, 8192, true, 0, false, 0⟩ : WState))
        = (⟨8191, 8192, true, 0, false, 0⟩ : WState) := by
      rw [run_ticks_below 8191 _ (by decide) (by decide)]
    rw [harm, wrun_append, h1]
    decide

/-- C7: `arm()` (`UART_WATCH_ENABLE`) programs `TA1CCR1` to the current
timer value plus `UART_WATCHDOG_PERIOD` — a fixed tick count equal to
`(ACLK_TICKS_PER_SECOND * 250) / 1000 = 8192` ticks, exactly 250 ms of the
32768 Hz ACLK — and enables the countdown interrupt, leaving the timer
counter and everything else alone; `disarm()` (`UART_WATCH_DISABLE`)
clears the interrupt-enable bit and has no other side effect on the state;
and on expiry `uartWatchdogIsr` first disarms (it is the composition of
`Em_Message_restart` after `UART_WATCH_DISABLE`) and invokes the
transport-restart callback exactly once. -/
theorem C7_watchdog_arm_disarm_expiry_contract :
    (∀ s : WState,
      (UART_WATCH_ENABLE s).ta1ccr1 = (s.ta1r + UART_WATCHDOG_PERIOD) % UINT16_MOD ∧
      (UART_WATCH_ENABLE s).ta1cctl1 = true ∧
      (UART_WATCH_ENABLE s).ta1r = s.ta1r ∧
      (UART_WATCH_ENABLE s).eapTxBuf = s.eapTxBuf ∧
      (UART_WATCH_ENABLE s).restarts = s.restarts ∧
      UART_WATCH_DISABLE s = { s with ta1cctl1 := false } ∧
      uartWatchdogIsr s = Em_Message_restart (UART_WATCH_DISABLE s) ∧
      (uartWatchdogIsr s).ta1cctl1 = false ∧
      (uartWatchdogIsr s).restarts = s.restarts + 1) ∧
    UART_WATCHDOG_PERIOD = ACLK_TICKS_PER_SECOND * 250 / 1000 ∧
    UART_WATCHDOG_PERIOD = 8192 ∧
    UART_WATCHDOG_PERIOD * 1000 / ACLK_TICKS_PER_SECOND = 250 := by
  refine ⟨?_, rfl, by decide, by decide⟩
  intro s
  simp [UART_WATCH_ENABLE, UART_WATCH_DISABLE, uartWatchdogIsr,
    Em_Message_restart]

/-- The straight-line steps of `Em_Hal_reset` (Hal.c lines 357-368), in
program order: `Em_Hal_lock()` (disable interrupts, saving the previous
state in `key`), `EAP_RX_ACK_CLR()` (suspend the MCM), `Hal_delay(100)`,
`EAP_RX_ACK_SET()` (reset the MCM), `Hal_delay(500)`, clearing of the
stale RX/TX/ACK pending flags, `EAP_RX_INT_ENABLE()`, and finally
`Em_Hal_unlock(key)` (restore interrupts).  `Hal_delay(msecs)` (Hal.c
lines 221-225) busy-waits `msecs` milliseconds. -/
inductive ResetStep where
  | lock
  | rxAckClr
  | delay (msecs : Nat)
  | rxAckSet
  | rxIntClr
  | txIntClr
  | txAckClr
  | rxIntEnable
  | unlock
deriving DecidableEq

/-- The body of `Em_Hal_reset`, as its sequence of steps. -/
def Em_Hal_reset_steps : List ResetStep :=
  [.lock, .rxAckClr, .delay 100, .rxAckSet, .delay 500,
   .rxIntClr, .txIntClr, .txAckClr, .rxIntEnable, .unlock]

def isLockStep : ResetStep → Bool
  | .lock => true
  | _ => false

def isUnlockStep : ResetStep → Bool
  | .unlock => true
  | _ => false

def isDelayStep : ResetStep → Bool
  | .delay _ => true
  | _ => false

/-- The critical-section token is held while step `i` of the sequence
executes iff strictly more `lock` than `unlock` steps precede it. -/
def lockHeldDuring (steps : List ResetStep) (i : Nat) : Bool :=
  decide ((steps.take i).countP isUnlockStep < (steps.take i).countP isLockStep)

/-- C4 counterexample: the claim says the busy-wait delay steps of the
link-reset primitive run outside any lock; in `Em_Hal_reset` the lock is
acquired first and released last, so both `Hal_delay(100)` (step 2) and
`Hal_delay(500)` (step 4) execute with the critical-section token held
(interrupts globally disabled). -/
theorem C4_counterexample_delays_run_under_lock :
    Em_Hal_reset_steps.getD 2 ResetStep.lock = ResetStep.delay 100 ∧
    lockHeldDuring Em_Hal_reset_steps 2 = true ∧
    Em_Hal_reset_steps.getD 4 ResetStep.lock = ResetStep.delay 500 ∧
    lockHeldDuring Em_Hal_reset_steps 4 = true := by
  decide

/-- C4 amended: throughout every execution of the link-reset primitive the
critical-section token is held for the whole sequence INCLUDING the
busy-wait delay steps: `Em_Hal_reset` takes the lock as its first step and
releases it as its last, so the global critical section IS held across the
blocking delays (every delay step executes with more locks than unlocks
preceding it). -/
theorem C4_lock_held_across_delays (i : Nat)
    (h : isDelayStep (Em_Hal_reset_steps.getD i ResetStep.lock) = true) :
    lockHeldDuring Em_Hal_reset_steps i = true := by
  have hlen : i < 10 := by
    by_contra hge
    push_neg at hge
    rw [List.getD_eq_default] at h
    · simp [isDelayStep] at h
    · simpa [Em_Hal_reset_steps] using hge
  interval_cases i <;> revert h <;> decide

/-- C4 amended witness: the 100 ms delay (step 2) runs with the lock held. -/
theorem C4_lock_held_across_delays_witness :
    isDelayStep (Em_Hal_reset_steps.getD 2 ResetStep.lock) = true ∧
    lockHeldDuring Em_Hal_reset_steps 2 = true :=
  ⟨by decide, C4_lock_held_across_delays 2 (by decide)⟩

/-- The observable actions of the receive interrupt `rxIsr` (Hal.c lines
437-452), in program order: notify the codec that reception is starting
(`Em_Message_startRx`), pulse the local receiver-ready line low
(`EAP_RX_ACK_CLR`) then high (`EAP_RX_ACK_SET`), forward the received byte
to the codec (`Em_Message_addByte(b)`), conditionally post the
transport-dispatch event, and request wake-up. -/
inductive RxAction where
  | startRx
  | rxAckClr
  | rxAckSet
  | addByte (b : Nat)
  | post (handlerId : Nat)
  | wakeup
deriving DecidableEq

/-- `rxIsr` (Hal.c lines 437-452): on interrupt vector `UCA2IV = 2`
(RXIFG) it reads the byte `b` from `EAP_RX_BUF`, calls
`Em_Message_startRx()`, pulses `EAP_RX_ACK` low then high, feeds `b` to
`Em_Message_addByte`, and posts `DISPATCH_HANDLER_ID` exactly when the
codec reports the frame complete (`frameComplete` is the oracle for the
codec's Boolean return value on this byte); any other vector value does
nothing. -/
def rxIsr (iv b : Nat) (frameComplete : Bool) : List RxAction :=
  if iv = 2 then
    [.startRx, .rxAckClr, .rxAckSet, .addByte b]
      ++ (if frameComplete then [.post DISPATCH_HANDLER_ID, .wakeup]
          else [.wakeup])
  else []

/-- C8: for every received byte the receive interrupt notifies the codec
that reception is starting, pulses the receiver-ready line low-then-high,
and forwards the byte to the codec, in that order (the four actions are a
sublist in program order); and it posts the transport-dispatch event if
and only if the codec reports the frame complete for that byte. -/
theorem C8_rxIsr_pulse_forward_post_iff_complete (b : Nat)
    (frameComplete : Bool) :
    [RxAction.startRx, RxAction.rxAckClr, RxAction.rxAckSet,
      RxAction.addByte b].Sublist (rxIsr 2 b frameComplete) ∧
    (RxAction.post DISPATCH_HANDLER_ID ∈ rxIsr 2 b frameComplete ↔
      frameComplete = true) := by
  cases frameComplete <;>
    simp [rxIsr, List.sublist_append_left]
